import Mathlib

/-!
Shallow embedding of the asteroid collision simulator in `src/main.py`.

Numbers are modelled as exact rationals (`ℚ`); the Euclidean distance test of
`check_collision` is stated over `ℝ` with `Real.sqrt`, and made decidable by
the equivalent squared comparison.  Python dictionaries keyed by integer id are
modelled as association lists (`List (ℤ × Body)`) with Python's dict semantics:
lookup finds the (unique) entry with the key, and insertion of an existing key
overwrites the stored value in place.  `np.arange(0, stop, step)` is modelled
by its exact-arithmetic semantics: the values `i * step` for
`0 ≤ i < ⌈stop / step⌉`.  Python's `round(t, 1)` rounds half to even.
-/

namespace AsteroidSim

/-- An asteroid record, as built by `load_asteroids` in `src/main.py`
(fields `id`, `x`, `y`, `radius`, `vx`, `vy`). -/
structure Body where
  id : ℤ
  x : ℚ
  y : ℚ
  radius : ℚ
  vx : ℚ
  vy : ℚ
deriving DecidableEq

/-- Python dict lookup on an association list: the entry with the given key. -/
def dictGet : List (ℤ × Body) → ℤ → Option Body
  | [], _ => none
  | (k1, v) :: rest, k => if k1 = k then some v else dictGet rest k

/-- Python dict insertion: overwrite the value of an existing key in place,
otherwise append the new binding at the end. -/
def dictInsert (m : List (ℤ × Body)) (k : ℤ) (v : Body) : List (ℤ × Body) :=
  if m.any (fun p => decide (p.1 = k)) then
    m.map (fun p => if p.1 = k then (k, v) else p)
  else
    m ++ [(k, v)]

/-- `check_collision` (src/main.py lines 76-79), as a proposition:
`sqrt((x1-x2)^2 + (y1-y2)^2) < radius1 + radius2`, strict inequality. -/
def collisionProp (a1 a2 : Body) : Prop :=
  Real.sqrt (((a1.x - a2.x : ℚ) : ℝ) ^ 2 + ((a1.y - a2.y : ℚ) : ℝ) ^ 2)
    < ((a1.radius + a2.radius : ℚ) : ℝ)

instance collisionPropDecidable (a1 a2 : Body) : Decidable (collisionProp a1 a2) :=
  decidable_of_iff
    (0 < a1.radius + a2.radius ∧
      (a1.x - a2.x) ^ 2 + (a1.y - a2.y) ^ 2 < (a1.radius + a2.radius) ^ 2)
    (by
      constructor
      · rintro ⟨hr, hlt⟩
        have hr2 : (0 : ℝ) < ((a1.radius + a2.radius : ℚ) : ℝ) := by exact_mod_cast hr
        refine (Real.sqrt_lt' hr2).mpr ?_
        push_cast
        exact_mod_cast hlt
      · intro h
        have h0 : (0 : ℝ) ≤ Real.sqrt (((a1.x - a2.x : ℚ) : ℝ) ^ 2 + ((a1.y - a2.y : ℚ) : ℝ) ^ 2) :=
          Real.sqrt_nonneg _
        have hr2 : (0 : ℝ) < ((a1.radius + a2.radius : ℚ) : ℝ) := lt_of_le_of_lt h0 h
        have hlt := (Real.sqrt_lt' hr2).mp h
        refine ⟨by exact_mod_cast hr2, ?_⟩
        have : ((a1.x - a2.x : ℚ) : ℝ) ^ 2 + ((a1.y - a2.y : ℚ) : ℝ) ^ 2
            < (((a1.radius + a2.radius : ℚ) : ℝ)) ^ 2 := hlt
        exact_mod_cast this)

/-- `check_collision` as the boolean the source returns. -/
def check_collision (a1 a2 : Body) : Bool :=
  decide (collisionProp a1 a2)

/-- Round a rational to the nearest integer, half to even
(the semantics of Python's builtin `round`). -/
def roundHalfEven (q : ℚ) : ℤ :=
  if q - ⌊q⌋ < 1/2 then ⌊q⌋
  else if 1/2 < q - ⌊q⌋ then ⌊q⌋ + 1
  else if ⌊q⌋ % 2 = 0 then ⌊q⌋ else ⌊q⌋ + 1

/-- Python's `round(q, 1)` (src/main.py line 101). -/
def round1 (q : ℚ) : ℚ :=
  (roundHalfEven (10 * q) : ℚ) / 10

/-- `np.arange(0, stop, step)` in exact arithmetic: `i * step` for
`0 ≤ i < ⌈stop / step⌉` (empty for a nonpositive step). -/
def arange (stop step : ℚ) : List ℚ :=
  if 0 < step then (List.range (Int.toNat ⌈stop / step⌉)).map (fun i => (i : ℚ) * step)
  else []

/-- The sampled raw times of the simulation loop (src/main.py line 100):
`np.arange(0, duration + time_step, time_step)`. -/
def timeSamples (duration time_step : ℚ) : List ℚ :=
  arange (duration + time_step) time_step

/-- One body of `calculate_positions`: a copy of the record with
`x := x + vx * t` and `y := y + vy * t` (src/main.py lines 85-87). -/
def moveBody (b : Body) (t : ℚ) : Body :=
  { b with x := b.x + b.vx * t, y := b.y + b.vy * t }

/-- `calculate_positions` (src/main.py lines 81-89). -/
def calculate_positions (m : List (ℤ × Body)) (t : ℚ) : List (ℤ × Body) :=
  m.map (fun p => (p.1, moveBody p.2 t))

/-- The nested pair loop of src/main.py lines 107-108: all pairs
`(ids[i], ids[j])` with `i < j`, in loop order. -/
def pairsAfter : List ℤ → List (ℤ × ℤ)
  | [] => []
  | x :: xs => xs.map (fun y => (x, y)) ++ pairsAfter xs

/-- The body of the inner pair loop (src/main.py lines 109-119): look up both
current states, put the smaller id first, and emit `[t, id1, id2]` when
`check_collision` holds. -/
def pairEvent (pos : List (ℤ × Body)) (t : ℚ) (pr : ℤ × ℤ) : Option (ℚ × ℤ × ℤ) :=
  match dictGet pos pr.1, dictGet pos pr.2 with
  | some a1, some a2 =>
      if pr.2 < pr.1 then
        (if check_collision a2 a1 then some (t, pr.2, pr.1) else none)
      else
        (if check_collision a1 a2 then some (t, pr.1, pr.2) else none)
  | _, _ => none

/-- All collision events appended during one time sample. -/
def stepEvents (pos : List (ℤ × Body)) (ids : List ℤ) (t : ℚ) : List (ℚ × ℤ × ℤ) :=
  (pairsAfter ids).filterMap (pairEvent pos t)

/-- `sorted(asteroids_by_id.keys())` (src/main.py line 97). -/
def sortedIds (m : List (ℤ × Body)) : List ℤ :=
  List.insertionSort (· ≤ ·) (m.map Prod.fst)

/-- `simulate_collisions` (src/main.py lines 91-121). -/
def simulate_collisions (m : List (ℤ × Body)) (duration : ℚ) (time_step : ℚ) :
    List (ℚ × ℤ × ℤ) :=
  ((timeSamples duration time_step).map (fun t0 =>
    let t := round1 t0
    stepEvents (calculate_positions m t) (sortedIds m) t)).flatten

/-- The ordering of the event log claimed by the spec: ascending time, then
ascending lesser id, then ascending greater id. -/
def evLE (e1 e2 : ℚ × ℤ × ℤ) : Prop :=
  e1.1 < e2.1 ∨ (e1.1 = e2.1 ∧ (e1.2.1 < e2.2.1 ∨ (e1.2.1 = e2.2.1 ∧ e1.2.2 ≤ e2.2.2)))

instance evLEDecidable (e1 e2 : ℚ × ℤ × ℤ) : Decidable (evLE e1 e2) := by
  unfold evLE
  infer_instance

/-- `line.strip().split()`: whitespace-separated tokens (whitespace is
modelled as the space character). -/
def tokens (line : String) : List String :=
  (line.splitOn " ").filter (fun s => s ≠ "")

/-- `s.replace(c, "", 1)` on a list of characters: drop the first occurrence
of `c`, if any. -/
def removeFirst (c : Char) : List Char → List Char
  | [] => []
  | x :: xs => if x = c then xs else x :: removeFirst c xs

/-- The header heuristic of src/main.py line 22 applied to one token:
`part.replace('.', '', 1).replace('-', '', 1).isdigit()`. -/
def numericToken (s : String) : Bool :=
  let cs := removeFirst '-' (removeFirst '.' s.toList)
  !cs.isEmpty && cs.all Char.isDigit

/-- Python's `str.isdigit`: nonempty and all decimal digits. -/
def digitsToken (s : String) : Bool :=
  !s.isEmpty && s.toList.all Char.isDigit

/-- The numeric value of a list of decimal digits. -/
def digitsVal (cs : List Char) : ℕ :=
  cs.foldl (fun n c => 10 * n + (c.toNat - Char.toNat '0')) 0

/-- Python's `int(s)` on a token: optional sign followed by digits. -/
def parseIntTok (s : String) : Option ℤ :=
  match s.toList with
  | '-' :: cs => if !cs.isEmpty && cs.all Char.isDigit then some (-(digitsVal cs : ℤ)) else none
  | '+' :: cs => if !cs.isEmpty && cs.all Char.isDigit then some (digitsVal cs : ℤ) else none
  | cs => if !cs.isEmpty && cs.all Char.isDigit then some (digitsVal cs : ℤ) else none

/-- Python's `float(s)` on an unsigned decimal numeral
(`digits`, `digits.digits`, `digits.` or `.digits`). -/
def parseDecimal (cs : List Char) : Option ℚ :=
  let ip := cs.takeWhile Char.isDigit
  match cs.dropWhile Char.isDigit with
  | [] => if ip.isEmpty then none else some (digitsVal ip : ℚ)
  | '.' :: fp =>
      if fp.all Char.isDigit && !(ip.isEmpty && fp.isEmpty) then
        some ((digitsVal ip : ℚ) + (digitsVal fp : ℚ) / 10 ^ fp.length)
      else none
  | _ => none

/-- Python's `float(s)` on a token: optional sign, then a decimal numeral. -/
def parseRatTok (s : String) : Option ℚ :=
  match s.toList with
  | '-' :: cs => (parseDecimal cs).map (fun q => -q)
  | '+' :: cs => parseDecimal cs
  | cs => parseDecimal cs

/-- The runtime errors the loader of src/main.py can raise while processing a
data row: `IndexError` from `parts[5]`, `ValueError` from `int`/`float`. -/
inductive LoadError where
  | indexError : LoadError
  | valueError : LoadError
deriving DecidableEq

deriving instance DecidableEq for Except

/-- Turn an optional parse result into the loader's error. -/
def orError {α : Type} (o : Option α) (e : LoadError) : Except LoadError α :=
  match o with
  | some a => Except.ok a
  | none => Except.error e

/-- `parts[i]`: list indexing that raises `IndexError` when out of bounds. -/
def getTok (parts : List String) (i : ℕ) : Except LoadError String :=
  match parts[i]? with
  | some s => Except.ok s
  | none => Except.error LoadError.indexError

/-- Build one asteroid record from a data row with at least 5 columns
(src/main.py lines 48-68).  In the explicit-id branch the sixth column is
accessed unconditionally; Python evaluates the dict fields in order, so the
first five fields are converted before `parts[5]` is indexed. -/
def parseRow (has_ids : Bool) (auto_id : ℤ) (parts : List String) : Except LoadError Body :=
  if has_ids then do
    let i ← orError (parseIntTok (parts.getD 0 "")) LoadError.valueError
    let x ← orError (parseRatTok (parts.getD 1 "")) LoadError.valueError
    let y ← orError (parseRatTok (parts.getD 2 "")) LoadError.valueError
    let r ← orError (parseRatTok (parts.getD 3 "")) LoadError.valueError
    let vx ← orError (parseRatTok (parts.getD 4 "")) LoadError.valueError
    let s5 ← getTok parts 5
    let vy ← orError (parseRatTok s5) LoadError.valueError
    Except.ok ⟨i, x, y, r, vx, vy⟩
  else do
    let x ← orError (parseRatTok (parts.getD 0 "")) LoadError.valueError
    let y ← orError (parseRatTok (parts.getD 1 "")) LoadError.valueError
    let r ← orError (parseRatTok (parts.getD 2 "")) LoadError.valueError
    let vx ← orError (parseRatTok (parts.getD 3 "")) LoadError.valueError
    let vy ← orError (parseRatTok (parts.getD 4 "")) LoadError.valueError
    Except.ok ⟨auto_id, x, y, r, vx, vy⟩

/-- The data-row loop of src/main.py lines 42-70: skip rows with fewer than 5
columns, thread the auto-id counter (incremented only when ids are
auto-generated), and collect the records in file order. -/
def loadRows (has_ids : Bool) : ℤ → List String → Except LoadError (List Body)
  | _, [] => Except.ok []
  | ctr, line :: rest =>
    let parts := tokens line
    if parts.length < 5 then loadRows has_ids ctr rest
    else do
      let b ← parseRow has_ids ctr parts
      let bs ← loadRows has_ids (if has_ids then ctr else ctr + 1) rest
      Except.ok (b :: bs)

/-- The header heuristic (src/main.py lines 18-39): decide whether data rows
carry an explicit leading id column. -/
def hasIdsOf (lines : List String) : Bool :=
  match lines with
  | [] => false
  | l0 :: rest =>
    let parts := tokens l0
    if parts.any (fun p => !numericToken p) then
      let fdl := tokens (rest.headD "")
      decide (fdl.length ≥ 6) && digitsToken (fdl.headD "")
    else
      decide (parts.length ≥ 6) && digitsToken (parts.headD "")

/-- The lines the data loop iterates over: all lines, minus the first when it
was detected as a header (src/main.py lines 22-35). -/
def dataLines (lines : List String) : List String :=
  match lines with
  | [] => []
  | l0 :: rest =>
    if (tokens l0).any (fun p => !numericToken p) then rest else l0 :: rest

/-- `{a['id']: a for a in asteroids}` (src/main.py line 73). -/
def buildDict (l : List Body) : List (ℤ × Body) :=
  l.foldl (fun m b => dictInsert m b.id b) []

set_option linter.unusedVariables false in
/-- `load_asteroids` (src/main.py lines 10-74).  The file contents are passed
as a map from file name to list of lines; the source ignores its `filename`
argument and always opens the literal name `"asteroid.txt"` (line 13). -/
def load_asteroids (filename : String) (diskFiles : String → List String) :
    Except LoadError (List (ℤ × Body)) :=
  let lines := diskFiles "asteroid.txt"
  (loadRows (hasIdsOf lines) 1 (dataLines lines)).map buildDict

/-- The last record of `l` whose `id` field is `k`, if any: the record that
Python's dict comprehension `{a['id']: a for a in asteroids}` stores at key
`k`. -/
def lastWith (l : List Body) (k : ℤ) : Option Body :=
  l.reverse.find? (fun b => decide (b.id = k))

/-- Concrete input: two unit-radius bodies whose centers are 1 apart, so they
overlap at every time (both are at rest). -/
def pairMapEx : List (ℤ × Body) :=
  [(1, ⟨1, 0, 0, 1, 0, 0⟩), (2, ⟨2, 1, 0, 1, 0, 0⟩)]

/-- Concrete input: a body of radius 1/2 at the origin, at rest. -/
def touchA : Body := ⟨1, 0, 0, 1/2, 0, 0⟩

/-- Concrete input: a body of radius 1/2 at (1, 0), at rest: it exactly
touches `touchA` (center distance 1 = 1/2 + 1/2). -/
def touchB : Body := ⟨2, 1, 0, 1/2, 0, 0⟩

/-- Concrete input: three coincident unit-radius bodies at rest; every pair
overlaps at every sample. -/
def tripleMapEx : List (ℤ × Body) :=
  [(1, ⟨1, 0, 0, 1, 0, 0⟩), (2, ⟨2, 0, 0, 1, 0, 0⟩), (3, ⟨3, 0, 0, 1, 0, 0⟩)]

/-- Concrete input file: a header and two data rows sharing explicit id 7. -/
def dupIdLines : List String :=
  ["id x y radius vx vy", "7 0 0 1 0 0", "7 5 5 2 1 1"]

/-! Helper lemmas -/

theorem moveBody_zero (b : Body) : moveBody b 0 = b := by
  cases b
  simp [moveBody]

theorem dictGet_cons (k1 : ℤ) (v : Body) (rest : List (ℤ × Body)) (k : ℤ) :
    dictGet ((k1, v) :: rest) k = if k1 = k then some v else dictGet rest k := rfl

theorem dictGet_calculate_positions (m : List (ℤ × Body)) (t : ℚ) (k : ℤ) :
    dictGet (calculate_positions m t) k = (dictGet m k).map (fun b => moveBody b t) := by
  induction m with
  | nil => rfl
  | cons p rest ih =>
      obtain ⟨p1, p2⟩ := p
      simp only [calculate_positions, List.map_cons] at ih ⊢
      by_cases h : p1 = k
      · simp [dictGet_cons, h]
      · simp [dictGet_cons, h, ih]

theorem dictGet_of_mem {m : List (ℤ × Body)} {k : ℤ} {b : Body}
    (hnd : (m.map Prod.fst).Nodup) (hmem : (k, b) ∈ m) : dictGet m k = some b := by
  induction m with
  | nil => cases hmem
  | cons p rest ih =>
      obtain ⟨p1, p2⟩ := p
      rw [List.map_cons, List.nodup_cons] at hnd
      rcases List.mem_cons.mp hmem with h | h
      · cases h
        simp [dictGet]
      · have hk : p1 ≠ k := by
          intro hpk
          refine hnd.1 ?_
          rw [hpk]
          exact List.mem_map.mpr ⟨(k, b), h, rfl⟩
        simp only [dictGet, if_neg hk]
        exact ih hnd.2 h

theorem dictGet_append (m1 m2 : List (ℤ × Body)) (k : ℤ) :
    dictGet (m1 ++ m2) k = (dictGet m1 k).or (dictGet m2 k) := by
  induction m1 with
  | nil => simp [dictGet, Option.none_or]
  | cons p rest ih =>
      by_cases h : p.1 = k <;> simp [dictGet, h, ih]

theorem dictGet_eq_none {m : List (ℤ × Body)} {k : ℤ}
    (h : ∀ p ∈ m, p.1 ≠ k) : dictGet m k = none := by
  induction m with
  | nil => rfl
  | cons p rest ih =>
      simp only [dictGet, if_neg (h p (List.mem_cons_self _ _))]
      exact ih (fun q hq => h q (List.mem_cons_of_mem _ hq))

theorem dictGet_map_overwrite_ne {m : List (ℤ × Body)} {j k : ℤ} {v : Body} (hjk : j ≠ k) :
    dictGet (m.map (fun p => if p.1 = j then (j, v) else p)) k = dictGet m k := by
  induction m with
  | nil => rfl
  | cons p rest ih =>
      obtain ⟨p1, p2⟩ := p
      simp only [List.map_cons]
      by_cases h : p1 = j
      · rw [if_pos h, dictGet_cons, dictGet_cons, if_neg hjk, ih,
          if_neg (fun hk => hjk (h.symm.trans hk))]
      · rw [if_neg h, dictGet_cons, dictGet_cons, ih]

theorem dictGet_map_overwrite_self {m : List (ℤ × Body)} {j : ℤ} {v : Body}
    (h : ∃ p ∈ m, p.1 = j) :
    dictGet (m.map (fun p => if p.1 = j then (j, v) else p)) j = some v := by
  induction m with
  | nil => obtain ⟨p, hp, _⟩ := h; cases hp
  | cons p rest ih =>
      obtain ⟨p1, p2⟩ := p
      simp only [List.map_cons]
      by_cases hp : p1 = j
      · rw [if_pos hp, dictGet_cons, if_pos rfl]
      · rw [if_neg hp, dictGet_cons, if_neg hp]
        refine ih ?_
        obtain ⟨q, hq, hqj⟩ := h
        rcases List.mem_cons.mp hq with rfl | hq2
        · exact absurd hqj hp
        · exact ⟨q, hq2, hqj⟩

theorem dictGet_dictInsert (m : List (ℤ × Body)) (j k : ℤ) (v : Body) :
    dictGet (dictInsert m j v) k = if j = k then some v else dictGet m k := by
  unfold dictInsert
  by_cases hany : m.any (fun p => decide (p.1 = j)) = true
  · rw [if_pos hany]
    by_cases hjk : j = k
    · subst hjk
      rw [if_pos rfl]
      refine dictGet_map_overwrite_self ?_
      obtain ⟨p, hp, hpj⟩ := List.any_eq_true.mp hany
      exact ⟨p, hp, of_decide_eq_true hpj⟩
    · rw [dictGet_map_overwrite_ne hjk, if_neg hjk]
  · rw [if_neg hany, dictGet_append]
    have hnot : ∀ p ∈ m, p.1 ≠ j := by
      intro p hp hpj
      exact hany (List.any_eq_true.mpr ⟨p, hp, decide_eq_true hpj⟩)
    by_cases hjk : j = k
    · subst hjk
      rw [dictGet_eq_none hnot, if_pos rfl, Option.none_or]
      simp [dictGet]
    · have : dictGet [(j, v)] k = none := by simp [dictGet, hjk]
      rw [this, Option.or_none, if_neg hjk]

theorem dictGet_foldl_insert (l : List Body) (m : List (ℤ × Body)) (k : ℤ) :
    dictGet (l.foldl (fun acc b => dictInsert acc b.id b) m) k =
      (lastWith l k).or (dictGet m k) := by
  induction l generalizing m with
  | nil => simp [lastWith, Option.none_or]
  | cons b l ih =>
      rw [List.foldl_cons, ih, dictGet_dictInsert]
      have hsplit : lastWith (b :: l) k = (lastWith l k).or (if b.id = k then some b else none) := by
        unfold lastWith
        rw [List.reverse_cons, List.find?_append]
        congr 1
        by_cases hb : b.id = k <;> simp [List.find?_cons, hb]
      rw [hsplit, Option.or_assoc]
      congr 1
      by_cases hb : b.id = k <;> simp [hb]

theorem dictGet_buildDict (l : List Body) (k : ℤ) :
    dictGet (buildDict l) k = lastWith l k := by
  rw [buildDict, dictGet_foldl_insert]
  simp [dictGet, Option.or_none]

theorem sortedIds_pairwise {m : List (ℤ × Body)} (hnd : (m.map Prod.fst).Nodup) :
    (sortedIds m).Pairwise (· < ·) := by
  have hs : (sortedIds m).Sorted (· ≤ ·) := List.sorted_insertionSort _ _
  have hp : (sortedIds m).Nodup :=
    (List.perm_insertionSort (· ≤ ·) (m.map Prod.fst)).nodup_iff.mpr hnd
  exact hs.lt_of_le hp

theorem mem_sortedIds {m : List (ℤ × Body)} {a : ℤ} :
    a ∈ sortedIds m ↔ a ∈ m.map Prod.fst :=
  (List.perm_insertionSort (· ≤ ·) (m.map Prod.fst)).mem_iff

theorem pairsAfter_mem {l : List ℤ} {p : ℤ × ℤ} (hp : p ∈ pairsAfter l) :
    p.1 ∈ l ∧ p.2 ∈ l := by
  induction l with
  | nil => cases hp
  | cons x xs ih =>
      rw [pairsAfter, List.mem_append] at hp
      rcases hp with hp | hp
      · obtain ⟨y, hy, rfl⟩ := List.mem_map.mp hp
        exact ⟨List.mem_cons_self _ _, List.mem_cons_of_mem _ hy⟩
      · obtain ⟨h1, h2⟩ := ih hp
        exact ⟨List.mem_cons_of_mem _ h1, List.mem_cons_of_mem _ h2⟩

theorem pairsAfter_fst_lt {l : List ℤ} (hl : l.Pairwise (· < ·)) {p : ℤ × ℤ}
    (hp : p ∈ pairsAfter l) : p.1 < p.2 := by
  induction l with
  | nil => cases hp
  | cons x xs ih =>
      rw [pairsAfter, List.mem_append] at hp
      rcases hp with hp | hp
      · obtain ⟨y, hy, rfl⟩ := List.mem_map.mp hp
        exact (List.pairwise_cons.mp hl).1 y hy
      · exact ih (List.pairwise_cons.mp hl).2 hp

theorem count_eq_one_of_nodup_mem {xs : List ℤ} {j : ℤ} (hnd : xs.Nodup) (hj : j ∈ xs) :
    xs.count j = 1 := by
  induction xs with
  | nil => cases hj
  | cons y ys ih =>
      rw [List.nodup_cons] at hnd
      rcases List.mem_cons.mp hj with rfl | h
      · simp [List.count_cons, List.count_eq_zero.mpr hnd.1]
      · have hyj : y ≠ j := fun e => hnd.1 (e ▸ h)
        simp [List.count_cons, hyj, ih hnd.2 h]

theorem count_map_pairsWith (x j : ℤ) (xs : List ℤ) :
    (xs.map (fun y => (x, y))).count (x, j) = xs.count j := by
  induction xs with
  | nil => rfl
  | cons y ys ih =>
      simp only [List.map_cons, List.count_cons, ih]
      by_cases h : y = j
      · simp [h]
      · simp [h, Prod.ext_iff]

theorem count_map_pairsWith_ne {x i j : ℤ} (hix : i ≠ x) (xs : List ℤ) :
    (xs.map (fun y => (x, y))).count (i, j) = 0 := by
  rw [List.count_eq_zero]
  intro hmem
  obtain ⟨y, _, hy⟩ := List.mem_map.mp hmem
  exact hix (congrArg Prod.fst hy).symm

theorem pairsAfter_count {l : List ℤ} (hl : l.Pairwise (· < ·)) (i j : ℤ) :
    (pairsAfter l).count (i, j) = if i ∈ l ∧ j ∈ l ∧ i < j then 1 else 0 := by
  induction l with
  | nil => simp [pairsAfter]
  | cons x xs ih =>
      have hx : ∀ y ∈ xs, x < y := (List.pairwise_cons.mp hl).1
      have hxs : xs.Pairwise (· < ·) := (List.pairwise_cons.mp hl).2
      have hnd : xs.Nodup := hxs.imp ne_of_lt
      rw [pairsAfter, List.count_append, ih hxs]
      by_cases hxi : i = x
      · have hmem : i ∉ xs := fun hm => lt_irrefl i (hxi ▸ hx i hm)
        rw [hxi, count_map_pairsWith, ← hxi, if_neg (fun h => hmem h.1), Nat.add_zero]
        by_cases hj : j ∈ xs
        · rw [count_eq_one_of_nodup_mem hnd hj, if_pos
            ⟨hxi ▸ List.mem_cons_self x xs, List.mem_cons_of_mem _ hj, hxi ▸ hx j hj⟩]
        · rw [List.count_eq_zero.mpr hj, if_neg]
          rintro ⟨_, hjl, hij⟩
          rcases List.mem_cons.mp hjl with rfl | hjxs
          · exact lt_irrefl j (hxi ▸ hij)
          · exact hj hjxs
      · rw [count_map_pairsWith_ne hxi, Nat.zero_add]
        refine if_congr ?_ rfl rfl
        constructor
        · rintro ⟨h1, h2, h3⟩
          exact ⟨List.mem_cons_of_mem _ h1, List.mem_cons_of_mem _ h2, h3⟩
        · rintro ⟨h1, h2, h3⟩
          have h1' : i ∈ xs := by
            rcases List.mem_cons.mp h1 with rfl | h
            · exact absurd rfl hxi
            · exact h
          refine ⟨h1', ?_, h3⟩
          rcases List.mem_cons.mp h2 with rfl | h
          · exact absurd h3 (not_lt.mpr (hx i h1').le)
          · exact h

theorem pairEvent_time {pos : List (ℤ × Body)} {t : ℚ} {p : ℤ × ℤ} {e : ℚ × ℤ × ℤ}
    (h : pairEvent pos t p = some e) : e.1 = t := by
  unfold pairEvent at h
  split at h
  · split at h <;> split at h <;> cases h <;> rfl
  · cases h

theorem pairEvent_of_lt {pos : List (ℤ × Body)} {t : ℚ} {p : ℤ × ℤ} {s1 s2 : Body}
    (hp : p.1 < p.2) (h1 : dictGet pos p.1 = some s1) (h2 : dictGet pos p.2 = some s2) :
    pairEvent pos t p = (if check_collision s1 s2 then some (t, p.1, p.2) else none) := by
  unfold pairEvent
  rw [h1, h2]
  simp [if_neg (not_lt.mpr hp.le)]

theorem pairEvent_eq_some_of_lt {pos : List (ℤ × Body)} {t : ℚ} {p : ℤ × ℤ} {e : ℚ × ℤ × ℤ}
    (hp : p.1 < p.2) (h : pairEvent pos t p = some e) : e = (t, p.1, p.2) := by
  unfold pairEvent at h
  split at h
  · rw [if_neg (not_lt.mpr hp.le)] at h
    split at h
    · cases h
      rfl
    · cases h
  · cases h

theorem stepEvents_mem_time {pos : List (ℤ × Body)} {ids : List ℤ} {t : ℚ} {e : ℚ × ℤ × ℤ}
    (h : e ∈ stepEvents pos ids t) : e.1 = t := by
  obtain ⟨p, _, hp⟩ := List.mem_filterMap.mp h
  exact pairEvent_time hp

theorem pairsAfter_pairwise {l : List ℤ} (hl : l.Pairwise (· < ·)) :
    (pairsAfter l).Pairwise (fun p q => p.1 < q.1 ∨ (p.1 = q.1 ∧ p.2 < q.2)) := by
  induction l with
  | nil => exact List.Pairwise.nil
  | cons x xs ih =>
      rw [pairsAfter, List.pairwise_append]
      have hx : ∀ y ∈ xs, x < y := (List.pairwise_cons.mp hl).1
      have hxs := (List.pairwise_cons.mp hl).2
      refine ⟨?_, ih hxs, ?_⟩
      · rw [List.pairwise_map]
        exact hxs.imp (fun h => Or.inr ⟨rfl, h⟩)
      · intro a ha b hb
        obtain ⟨y, _, rfl⟩ := List.mem_map.mp ha
        exact Or.inl (hx b.1 (pairsAfter_mem hb).1)

theorem dictGet_key_exists {m : List (ℤ × Body)} {a : ℤ}
    (hnd : (m.map Prod.fst).Nodup) (ha : a ∈ m.map Prod.fst) :
    ∃ ba, dictGet m a = some ba := by
  obtain ⟨⟨a1, ba⟩, hqm, hq1⟩ := List.mem_map.mp ha
  cases hq1
  exact ⟨ba, dictGet_of_mem hnd hqm⟩

/-! Claim theorems -/

/-- C5: the kinematics evaluation returns `x = x0 + vx * t`, `y = y0 + vy * t`
(all other fields copied unchanged), recomputed from the original record for
every body and every time, and evaluating at `t = 0` returns the initial
positions exactly. -/
theorem C5_calculate_positions_kinematics (b : Body) (t : ℚ) (m : List (ℤ × Body)) :
    (moveBody b t).x = b.x + b.vx * t ∧
    (moveBody b t).y = b.y + b.vy * t ∧
    (moveBody b t).id = b.id ∧
    (moveBody b t).radius = b.radius ∧
    (moveBody b t).vx = b.vx ∧
    (moveBody b t).vy = b.vy ∧
    (∀ k : ℤ, dictGet (calculate_positions m t) k =
      (dictGet m k).map (fun b0 => moveBody b0 t)) ∧
    moveBody b 0 = b ∧
    calculate_positions m 0 = m :=
  ⟨rfl, rfl, rfl, rfl, rfl, rfl, fun k => dictGet_calculate_positions m t k,
    moveBody_zero b, by simp [calculate_positions, moveBody_zero]⟩

/-- C7: `simulate_collisions` is deterministic: two runs with identical
bodies, duration and time step produce identical event logs (its embedding is
a pure function of these three inputs; the source's randomness lives only in
the excluded rendering layer). -/
theorem C7_simulate_collisions_deterministic (m1 m2 : List (ℤ × Body)) (d1 d2 s1 s2 : ℚ)
    (hm : m1 = m2) (hd : d1 = d2) (hs : s1 = s2) :
    simulate_collisions m1 d1 s1 = simulate_collisions m2 d2 s2 := by
  rw [hm, hd, hs]

/-- Witness for C7 at a concrete input. -/
theorem C7_witness :
    simulate_collisions pairMapEx 1 1 = simulate_collisions pairMapEx 1 1 :=
  C7_simulate_collisions_deterministic pairMapEx pairMapEx 1 1 1 1 rfl rfl rfl

/-- C9: the result of `load_asteroids` does not depend on its filename
argument; the function always reads the fixed file "asteroid.txt". -/
theorem C9_load_asteroids_filename_irrelevant (f1 f2 : String) (fs : String → List String) :
    load_asteroids f1 fs = load_asteroids f2 fs := rfl

/-- C2: `check_collision` returns true iff the Euclidean distance between the
centers is strictly less than the sum of the radii; in particular two bodies
at distance exactly equal to the sum of the radii are not reported as
colliding. -/
theorem C2_check_collision_strict (a1 a2 : Body) :
    (check_collision a1 a2 = true ↔
      Real.sqrt (((a1.x - a2.x : ℚ) : ℝ) ^ 2 + ((a1.y - a2.y : ℚ) : ℝ) ^ 2)
        < ((a1.radius + a2.radius : ℚ) : ℝ)) ∧
    (Real.sqrt (((a1.x - a2.x : ℚ) : ℝ) ^ 2 + ((a1.y - a2.y : ℚ) : ℝ) ^ 2)
        = ((a1.radius + a2.radius : ℚ) : ℝ) → check_collision a1 a2 = false) := by
  constructor
  · exact decide_eq_true_iff
  · intro h
    apply decide_eq_false
    intro hc
    have hc2 : Real.sqrt (((a1.x - a2.x : ℚ) : ℝ) ^ 2 + ((a1.y - a2.y : ℚ) : ℝ) ^ 2)
        < ((a1.radius + a2.radius : ℚ) : ℝ) := hc
    rw [h] at hc2
    exact lt_irrefl _ hc2

/-- Witness for C2: the exactly-touching pair is not reported. -/
theorem C2_witness : check_collision touchA touchB = false :=
  (C2_check_collision_strict touchA touchB).2 (by
    have h1 : ((touchA.x - touchB.x : ℚ) : ℝ) ^ 2 + ((touchA.y - touchB.y : ℚ) : ℝ) ^ 2 = 1 := by
      norm_num [touchA, touchB]
    have h2 : ((touchA.radius + touchB.radius : ℚ) : ℝ) = 1 := by
      norm_num [touchA, touchB]
    rw [h1, h2, Real.sqrt_one])

/-- C3: for positive duration and step, the sampled raw times are
`0, s, 2s, ...` up to and including the first multiple of the step that
reaches the duration, and each raw sample is rounded to one decimal place
before it is used, both for position evaluation and as the reported event
time. -/
theorem C3_timeSamples_spec (d s : ℚ) (hd : 0 < d) (hs : 0 < s) :
    timeSamples d s = (List.range (Int.toNat ⌈d / s⌉ + 1)).map (fun i => (i : ℚ) * s) ∧
    d ≤ (Int.toNat ⌈d / s⌉ : ℚ) * s ∧
    (∀ k : ℕ, k < Int.toNat ⌈d / s⌉ → (k : ℚ) * s < d) ∧
    (∀ m : List (ℤ × Body), simulate_collisions m d s =
      ((timeSamples d s).map (fun t0 =>
        stepEvents (calculate_positions m (round1 t0)) (sortedIds m) (round1 t0))).flatten) := by
  have hpos : (0 : ℤ) < ⌈d / s⌉ := Int.ceil_pos.mpr (div_pos hd hs)
  refine ⟨?_, ?_, ?_, fun m => rfl⟩
  · have h1 : (d + s) / s = d / s + 1 := by
      rw [add_div, div_self (ne_of_gt hs)]
    have h2 : Int.toNat ⌈(d + s) / s⌉ = Int.toNat ⌈d / s⌉ + 1 := by
      rw [h1, Int.ceil_add_one]
      omega
    rw [timeSamples, arange, if_pos hs, h2]
  · have hle : d / s ≤ ((⌈d / s⌉ : ℤ) : ℚ) := Int.le_ceil _
    have heq : ((Int.toNat ⌈d / s⌉ : ℕ) : ℚ) = ((⌈d / s⌉ : ℤ) : ℚ) := by
      exact_mod_cast Int.toNat_of_nonneg hpos.le
    rw [heq]
    exact (div_le_iff₀ hs).mp hle
  · intro k hk
    have hk2 : (k : ℤ) < ⌈d / s⌉ := by omega
    have hlt : (k : ℚ) < d / s := by exact_mod_cast Int.lt_ceil.mp hk2
    exact (lt_div_iff₀ hs).mp hlt

/-- Witness for C3 with `duration = 1`, `time_step = 3/10` (the spec's
scenario 4, where the last sample steps past the duration). -/
theorem C3_witness :
    (0 : ℚ) < 1 ∧ (0 : ℚ) < 3/10 ∧
    timeSamples 1 (3/10) =
      (List.range (Int.toNat ⌈(1 : ℚ) / (3/10)⌉ + 1)).map (fun i => (i : ℚ) * (3/10)) :=
  ⟨by norm_num, by norm_num,
    (C3_timeSamples_spec 1 (3/10) (by norm_num) (by norm_num)).1⟩

/-- C6: every event emitted by `simulate_collisions` has its lesser id
strictly below its greater id, so no pair is ever reported in swapped order. -/
theorem C6_event_id_order (m : List (ℤ × Body)) (d s : ℚ)
    (hnd : (m.map Prod.fst).Nodup) (t : ℚ) (lo hi : ℤ)
    (he : (t, lo, hi) ∈ simulate_collisions m d s) : lo < hi := by
  rw [simulate_collisions, List.mem_flatten] at he
  obtain ⟨blk, hblk, hmem⟩ := he
  obtain ⟨t0, _, rfl⟩ := List.mem_map.mp hblk
  obtain ⟨p, hp, hpe⟩ := List.mem_filterMap.mp hmem
  have hlt : p.1 < p.2 := pairsAfter_fst_lt (sortedIds_pairwise hnd) hp
  have heq := pairEvent_eq_some_of_lt hlt hpe
  simp only [Prod.ext_iff] at heq
  rw [heq.2.1, heq.2.2]
  exact hlt

/-- Witness for C6 at a concrete input. -/
theorem C6_witness :
    ((0, 1, 2) ∈ simulate_collisions pairMapEx 1 1) ∧ (1 : ℤ) < 2 :=
  ⟨by with_unfolding_all decide,
    C6_event_id_order pairMapEx 1 1 (by with_unfolding_all decide) 0 1 2
      (by with_unfolding_all decide)⟩

/-- C8: duplicate explicit ids raise no error; the mapping built by
`load_asteroids` keeps, at every key, only the last parsed row with that id
(later entries silently overwrite earlier ones). -/
theorem C8_duplicate_id_last_wins (lines : List String) (l : List Body) (fn : String) (k : ℤ)
    (h : loadRows (hasIdsOf lines) 1 (dataLines lines) = Except.ok l) :
    load_asteroids fn (fun _ => lines) = Except.ok (buildDict l) ∧
    dictGet (buildDict l) k = lastWith l k := by
  constructor
  · show (loadRows (hasIdsOf lines) 1 (dataLines lines)).map buildDict = Except.ok (buildDict l)
    rw [h]
    rfl
  · exact dictGet_buildDict l k

/-- Witness for C8: a file whose two data rows both carry id 7; loading
succeeds and key 7 holds the second row. -/
theorem C8_witness :
    (loadRows (hasIdsOf dupIdLines) 1 (dataLines dupIdLines) =
      Except.ok [⟨7, 0, 0, 1, 0, 0⟩, ⟨7, 5, 5, 2, 1, 1⟩]) ∧
    load_asteroids "ignored" (fun _ => dupIdLines) =
      Except.ok (buildDict [⟨7, 0, 0, 1, 0, 0⟩, ⟨7, 5, 5, 2, 1, 1⟩]) ∧
    dictGet (buildDict [⟨7, 0, 0, 1, 0, 0⟩, ⟨7, 5, 5, 2, 1, 1⟩]) 7 =
      lastWith [⟨7, 0, 0, 1, 0, 0⟩, ⟨7, 5, 5, 2, 1, 1⟩] 7 ∧
    lastWith [⟨7, 0, 0, 1, 0, 0⟩, ⟨7, 5, 5, 2, 1, 1⟩] 7 = some ⟨7, 5, 5, 2, 1, 1⟩ :=
  ⟨by with_unfolding_all decide,
    (C8_duplicate_id_last_wins dupIdLines [⟨7, 0, 0, 1, 0, 0⟩, ⟨7, 5, 5, 2, 1, 1⟩]
      "ignored" 7 (by with_unfolding_all decide)).1,
    (C8_duplicate_id_last_wins dupIdLines [⟨7, 0, 0, 1, 0, 0⟩, ⟨7, 5, 5, 2, 1, 1⟩]
      "ignored" 7 (by with_unfolding_all decide)).2,
    by with_unfolding_all decide⟩

/-- C10: with the explicit-id heuristic on, a data row with exactly 5
whitespace-separated columns (whose first five fields parse) makes the row
constructor fail with an index error from the unconditional sixth-column
access, while only rows with fewer than 5 columns are skipped by the loop. -/
theorem C10_five_column_row_index_error
    (row : String) (ctr : ℤ) (i0 : ℤ) (x y r vx : ℚ)
    (hlen : (tokens row).length = 5)
    (h0 : parseIntTok ((tokens row).getD 0 "") = some i0)
    (h1 : parseRatTok ((tokens row).getD 1 "") = some x)
    (h2 : parseRatTok ((tokens row).getD 2 "") = some y)
    (h3 : parseRatTok ((tokens row).getD 3 "") = some r)
    (h4 : parseRatTok ((tokens row).getD 4 "") = some vx)
    (rest : List String)
    (has_ids : Bool) (c : ℤ) (line : String) (rest2 : List String)
    (hshort : (tokens line).length < 5) :
    parseRow true ctr (tokens row) = Except.error LoadError.indexError ∧
    loadRows true ctr (row :: rest) = Except.error LoadError.indexError ∧
    loadRows has_ids c (line :: rest2) = loadRows has_ids c rest2 := by
  have hrow : parseRow true ctr (tokens row) = Except.error LoadError.indexError := by
    have h5 : (tokens row)[5]? = none := List.getElem?_eq_none (by omega)
    unfold parseRow getTok orError
    rw [if_pos rfl]
    simp only [h0, h1, h2, h3, h4, h5]
    rfl
  refine ⟨hrow, ?_, ?_⟩
  · simp only [loadRows]
    rw [if_neg (by omega), hrow]
    rfl
  · simp only [loadRows]
    rw [if_pos hshort]

/-- Witness for C10: a five-column row under the explicit-id heuristic, and a
two-column row that is skipped. -/
theorem C10_witness :
    (parseRow true 1 (tokens "2 1 1 1 0") = Except.error LoadError.indexError) ∧
    (loadRows true 1 ["2 1 1 1 0"] = Except.error LoadError.indexError) ∧
    (loadRows true 1 ["1 2"] = loadRows true 1 []) ∧
    load_asteroids "whatever" (fun _ => ["id x y radius vx vy", "1 0 0 1 0 0", "2 1 1 1 0"]) =
      Except.error LoadError.indexError :=
  ⟨(C10_five_column_row_index_error "2 1 1 1 0" 1 2 1 1 1 0
      (by with_unfolding_all decide) (by with_unfolding_all decide)
      (by with_unfolding_all decide) (by with_unfolding_all decide)
      (by with_unfolding_all decide) (by with_unfolding_all decide)
      [] true 1 "1 2" [] (by with_unfolding_all decide)).1,
    (C10_five_column_row_index_error "2 1 1 1 0" 1 2 1 1 1 0
      (by with_unfolding_all decide) (by with_unfolding_all decide)
      (by with_unfolding_all decide) (by with_unfolding_all decide)
      (by with_unfolding_all decide) (by with_unfolding_all decide)
      [] true 1 "1 2" [] (by with_unfolding_all decide)).2.1,
    (C10_five_column_row_index_error "2 1 1 1 0" 1 2 1 1 1 0
      (by with_unfolding_all decide) (by with_unfolding_all decide)
      (by with_unfolding_all decide) (by with_unfolding_all decide)
      (by with_unfolding_all decide) (by with_unfolding_all decide)
      [] true 1 "1 2" [] (by with_unfolding_all decide)).2.2,
    by with_unfolding_all decide⟩

/-- C1: at each time sample (with the sample rounded before use), the events
the sample contributes contain exactly one event `(t, min, max)` for an
unordered pair of distinct ids when the pair's instantaneous states overlap
and none otherwise, such an event reaches the returned log, and the pair
enumeration over the ascending sorted ids visits each unordered pair exactly
once (never in swapped order). -/
theorem C1_one_event_per_overlapping_pair (m : List (ℤ × Body)) (d s : ℚ)
    (hnd : (m.map Prod.fst).Nodup) (t0 : ℚ) (ht : t0 ∈ timeSamples d s)
    (i j : ℤ) (bi bj : Body) (hi : (i, bi) ∈ m) (hj : (j, bj) ∈ m) (hij : i < j) :
    List.count (round1 t0, i, j)
        (stepEvents (calculate_positions m (round1 t0)) (sortedIds m) (round1 t0)) =
      (if check_collision (moveBody bi (round1 t0)) (moveBody bj (round1 t0)) then 1 else 0) ∧
    (check_collision (moveBody bi (round1 t0)) (moveBody bj (round1 t0)) = true →
      (round1 t0, i, j) ∈ simulate_collisions m d s) ∧
    List.count (i, j) (pairsAfter (sortedIds m)) = 1 ∧
    List.count (j, i) (pairsAfter (sortedIds m)) = 0 := by
  have hpw := sortedIds_pairwise hnd
  have hiIds : i ∈ sortedIds m := mem_sortedIds.mpr (List.mem_map.mpr ⟨(i, bi), hi, rfl⟩)
  have hjIds : j ∈ sortedIds m := mem_sortedIds.mpr (List.mem_map.mpr ⟨(j, bj), hj, rfl⟩)
  have hcount1 : List.count (i, j) (pairsAfter (sortedIds m)) = 1 := by
    rw [pairsAfter_count hpw]
    exact if_pos ⟨hiIds, hjIds, hij⟩
  have hcount0 : List.count (j, i) (pairsAfter (sortedIds m)) = 0 := by
    rw [pairsAfter_count hpw]
    apply if_neg
    rintro ⟨-, -, hji⟩
    exact lt_asymm hij hji
  have hgi : dictGet (calculate_positions m (round1 t0)) i = some (moveBody bi (round1 t0)) := by
    rw [dictGet_calculate_positions, dictGet_of_mem hnd hi]
    rfl
  have hgj : dictGet (calculate_positions m (round1 t0)) j = some (moveBody bj (round1 t0)) := by
    rw [dictGet_calculate_positions, dictGet_of_mem hnd hj]
    rfl
  have hmain : List.count (round1 t0, i, j)
      (stepEvents (calculate_positions m (round1 t0)) (sortedIds m) (round1 t0)) =
      (if check_collision (moveBody bi (round1 t0)) (moveBody bj (round1 t0)) then 1 else 0) := by
    rw [stepEvents, List.count_filterMap]
    have hpt : ∀ p ∈ pairsAfter (sortedIds m),
        ((pairEvent (calculate_positions m (round1 t0)) (round1 t0) p ==
            some (round1 t0, i, j)) = true ↔
          ((p == (i, j)) &&
            check_collision (moveBody bi (round1 t0)) (moveBody bj (round1 t0))) = true) := by
      intro p hp
      have hplt : p.1 < p.2 := pairsAfter_fst_lt hpw hp
      obtain ⟨a, b⟩ := p
      have ha : a ∈ sortedIds m := (pairsAfter_mem hp).1
      have hb : b ∈ sortedIds m := (pairsAfter_mem hp).2
      obtain ⟨ba, hba⟩ := dictGet_key_exists hnd (mem_sortedIds.mp ha)
      obtain ⟨bb, hbb⟩ := dictGet_key_exists hnd (mem_sortedIds.mp hb)
      have hga : dictGet (calculate_positions m (round1 t0)) a =
          some (moveBody ba (round1 t0)) := by
        rw [dictGet_calculate_positions, hba]
        rfl
      have hgb : dictGet (calculate_positions m (round1 t0)) b =
          some (moveBody bb (round1 t0)) := by
        rw [dictGet_calculate_positions, hbb]
        rfl
      by_cases hpij : a = i ∧ b = j
      · obtain ⟨rfl, rfl⟩ := hpij
        have hai : ba = bi := by
          have := hba.symm.trans (dictGet_of_mem hnd hi)
          exact Option.some.inj this
        have hbj : bb = bj := by
          have := hbb.symm.trans (dictGet_of_mem hnd hj)
          exact Option.some.inj this
        subst hai hbj
        rw [pairEvent_of_lt hplt hga hgb]
        by_cases hcc : check_collision (moveBody ba (round1 t0)) (moveBody bb (round1 t0)) <;>
          simp [hcc]
      · rw [pairEvent_of_lt hplt hga hgb]
        by_cases hcc : check_collision (moveBody ba (round1 t0)) (moveBody bb (round1 t0)) <;>
          simp [hcc, Prod.ext_iff] <;> intro h1 h2 <;> exact absurd ⟨h1, h2⟩ hpij
    rw [List.countP_congr hpt]
    by_cases hcc : check_collision (moveBody bi (round1 t0)) (moveBody bj (round1 t0))
    · simp only [hcc, Bool.and_true, if_pos]
      rw [← List.count_eq_countP]
      exact hcount1
    · simp only [hcc, Bool.and_false, if_neg]
      simp
  refine ⟨hmain, ?_, hcount1, hcount0⟩
  intro hcc
  rw [simulate_collisions]
  refine List.mem_flatten.mpr ⟨_, List.mem_map_of_mem _ ht, ?_⟩
  have : (0 : ℕ) < List.count (round1 t0, i, j)
      (stepEvents (calculate_positions m (round1 t0)) (sortedIds m) (round1 t0)) := by
    rw [hmain, hcc]
    exact Nat.zero_lt_one
  exact List.count_pos_iff.mp this

/-- Witness for C1 at a concrete input: the two bodies of `pairMapEx` overlap
at the first sample and the event is counted exactly once and logged. -/
theorem C1_witness :
    ((0 : ℚ) ∈ timeSamples 1 1) ∧
    ((round1 0, 1, 2) ∈ simulate_collisions pairMapEx 1 1) :=
  ⟨by with_unfolding_all decide,
    (C1_one_event_per_overlapping_pair pairMapEx 1 1 (by with_unfolding_all decide) 0
      (by with_unfolding_all decide) 1 2 ⟨1, 0, 0, 1, 0, 0⟩ ⟨2, 1, 0, 1, 0, 0⟩
      (by with_unfolding_all decide) (by with_unfolding_all decide)
      (by with_unfolding_all decide)).2.1 (by with_unfolding_all decide)⟩

/-- C4 (amended): the event log is sorted by ascending time, then ascending
lesser id, then ascending greater id, provided the rounded sample times are
strictly increasing (for example whenever the time step is a positive
multiple of 0.1).  Without that proviso the claim fails: when two raw
samples round to the same reported time the pair enumeration restarts, see
the counterexample. -/
theorem C4_sorted_log (m : List (ℤ × Body)) (d s : ℚ)
    (hnd : (m.map Prod.fst).Nodup)
    (hmono : ((timeSamples d s).map round1).Pairwise (· < ·)) :
    (simulate_collisions m d s).Pairwise evLE := by
  rw [simulate_collisions, List.pairwise_flatten]
  constructor
  · intro blk hblk
    obtain ⟨t0, -, rfl⟩ := List.mem_map.mp hblk
    show (stepEvents (calculate_positions m (round1 t0)) (sortedIds m) (round1 t0)).Pairwise evLE
    rw [stepEvents, List.pairwise_filterMap]
    have hpw := sortedIds_pairwise hnd
    refine (pairsAfter_pairwise hpw).imp_of_mem ?_
    intro p q hp hq hr e1 he1 e2 he2
    have hp1 : p.1 < p.2 := pairsAfter_fst_lt hpw hp
    have hq1 : q.1 < q.2 := pairsAfter_fst_lt hpw hq
    have e1eq := pairEvent_eq_some_of_lt hp1 (Option.mem_def.mp he1)
    have e2eq := pairEvent_eq_some_of_lt hq1 (Option.mem_def.mp he2)
    rw [e1eq, e2eq]
    rcases hr with hr | ⟨hr1, hr2⟩
    · exact Or.inr ⟨rfl, Or.inl hr⟩
    · exact Or.inr ⟨rfl, Or.inr ⟨hr1, hr2.le⟩⟩
  · rw [List.pairwise_map]
    have hmono2 : (timeSamples d s).Pairwise (fun t0 t1 => round1 t0 < round1 t1) :=
      List.pairwise_map.mp hmono
    refine hmono2.imp ?_
    intro t0 t1 hlt e1 he1 e2 he2
    have h1 : e1.1 = round1 t0 := stepEvents_mem_time he1
    have h2 : e2.1 = round1 t1 := stepEvents_mem_time he2
    exact Or.inl (h1 ▸ h2 ▸ hlt)

/-- Counterexample to C4 as stated: with `duration = time_step = 1/100` the
two raw samples 0 and 0.01 both round to 0.0, the three coincident bodies of
`tripleMapEx` collide pairwise at both samples, and the log
`[(0,1,2), (0,1,3), (0,2,3), (0,1,2), ...]` is not sorted by
(time, lesser id, greater id). -/
theorem C4_counterexample :
    ¬ (simulate_collisions tripleMapEx (1/100) (1/100)).Pairwise evLE := by
  with_unfolding_all decide

/-- Witness for the amended C4 at a concrete input with strictly increasing
rounded sample times. -/
theorem C4_witness :
    (tripleMapEx.map Prod.fst).Nodup ∧
    ((timeSamples 1 1).map round1).Pairwise (· < ·) ∧
    (simulate_collisions tripleMapEx 1 1).Pairwise evLE :=
  ⟨by with_unfolding_all decide, by with_unfolding_all decide,
    C4_sorted_log tripleMapEx 1 1 (by with_unfolding_all decide)
      (by with_unfolding_all decide)⟩

end AsteroidSim
